import Mathlib

/-!
Verification model of the academic-platform query client and relay.

The TypeScript sources are shallowly embedded:
* JavaScript strings are modelled as `List Char` (`Str`); `String.prototype.trim`
  becomes `jsTrim`, and the regular-expression operations used by the code
  (all of which are literal-scan based) become `findSub`-based functions.
* `JSON.parse` is modelled by the executable decoder `jsonDecode`
  (ECMA-404 grammar; numbers are kept exactly as mantissa times a power of
  ten instead of IEEE doubles; `\u` escapes decode to the corresponding
  scalar value).
* The client parse pipeline of `App.tsx` (`onQuery`) and the relay pipeline
  of the Express server (`POST /api/query`) are `clientAnswer`/`clientQuotes`
  and `relayAnswer`/`relayQuotes`; request shaping of `callAI` is
  `clientRequest`/`extractReply`.
-/

namespace AcademicPlatform

/-- JavaScript strings, modelled as lists of characters. -/
abbrev Str := List Char

/-- Whitespace as removed by `String.prototype.trim` (ASCII whitespace,
no-break space, BOM and the Unicode space separators actually relevant
here). -/
def isJsSpace (c : Char) : Bool :=
  c == ' ' || c == '\t' || c == '\n' || c == '\r' || c == '\x0b' || c == '\x0c' ||
  c.toNat == 0xa0 || c.toNat == 0xfeff || c.toNat == 0x1680 ||
  (decide (0x2000 ≤ c.toNat) && decide (c.toNat ≤ 0x200a)) ||
  c.toNat == 0x2028 || c.toNat == 0x2029 || c.toNat == 0x202f ||
  c.toNat == 0x205f || c.toNat == 0x3000

/-- Remove trailing characters satisfying `p`. -/
def dropTrailing (p : Char → Bool) (cs : Str) : Str :=
  (cs.reverse.dropWhile p).reverse

/-- Model of `String.prototype.trim`. -/
def jsTrim (cs : Str) : Str :=
  dropTrailing isJsSpace (cs.dropWhile isJsSpace)

/-- Model of `.trim()` on Lean `String`s. -/
def jsTrimS (s : String) : String := (jsTrim s.data).asString

/-- First occurrence of the pattern `pat` inside a text: returns the part
strictly before the occurrence and the part strictly after it.  This is the
semantics of the leftmost match of a literal in a JavaScript regex. -/
def findSub (pat : Str) : Str → Option (Str × Str)
  | [] => if pat.isEmpty then some ([], []) else none
  | c :: cs =>
    if pat.isPrefixOf (c :: cs) then some ([], (c :: cs).drop pat.length)
    else
      match findSub pat cs with
      | some (pre, post) => some (c :: pre, post)
      | none => none

/-- JSON values as produced by `JSON.parse`.  A number literal `m × 10^e`
is kept exactly (the embedding does not round to IEEE doubles). -/
inductive Json where
  | null : Json
  | bool : Bool → Json
  | num : Int → Int → Json
  | str : String → Json
  | arr : List Json → Json
  | obj : List (String × Json) → Json

/-- Property lookup on a parsed JSON object: JavaScript keeps the last of
duplicate keys, so lookup returns the last binding. -/
def objLookupLast (fields : List (String × Json)) (k : String) : Option Json :=
  (fields.filterMap fun p => if p.1 = k then some p.2 else none).getLast?

/-- Model of JavaScript property access `v[k]`: defined on objects, and
`none` (undefined) on every other JSON value. -/
def jsGet (j : Json) (k : String) : Option Json :=
  match j with
  | .obj fs => objLookupLast fs k
  | _ => none

/-- Model of JavaScript index access `v[n]` on a parsed JSON value. -/
def jsIndex (j : Json) (n : Nat) : Option Json :=
  match j with
  | .arr xs => xs[n]?
  | .obj fs => objLookupLast fs (toString n)
  | .str s =>
    match s.data[n]? with
    | some c => some (.str (String.singleton c))
    | none => none
  | _ => none

/-- JavaScript truthiness of a parsed JSON value. -/
def jsTruthy : Json → Bool
  | .null => false
  | .bool b => b
  | .num m _ => decide (m ≠ 0)
  | .str s => decide (s ≠ "")
  | .arr _ => true
  | .obj _ => true

/-- Whitespace accepted by `JSON.parse` between tokens. -/
def isJsonWs (c : Char) : Bool :=
  c == ' ' || c == '\t' || c == '\n' || c == '\r'

def skipWs (cs : Str) : Str := cs.dropWhile isJsonWs

def hexVal (c : Char) : Option Nat :=
  if '0' ≤ c ∧ c ≤ '9' then some (c.toNat - 48)
  else if 'a' ≤ c ∧ c ≤ 'f' then some (c.toNat - 87)
  else if 'A' ≤ c ∧ c ≤ 'F' then some (c.toNat - 55)
  else none

/-- Decode the body of a JSON string literal (after the opening quote),
returning the content and the rest after the closing quote. -/
def pStr : Str → Option (Str × Str)
  | [] => none
  | '"' :: rest => some ([], rest)
  | '\\' :: 'u' :: h1 :: h2 :: h3 :: h4 :: r =>
    match hexVal h1, hexVal h2, hexVal h3, hexVal h4 with
    | some a, some b, some c, some d =>
      match pStr r with
      | some (cs, rest2) =>
        some (Char.ofNat (((a * 16 + b) * 16 + c) * 16 + d) :: cs, rest2)
      | none => none
    | _, _, _, _ => none
  | '\\' :: e :: r =>
    let dec : Option Char :=
      if e = '"' then some '"'
      else if e = '\\' then some '\\'
      else if e = '/' then some '/'
      else if e = 'b' then some '\x08'
      else if e = 'f' then some '\x0c'
      else if e = 'n' then some '\n'
      else if e = 'r' then some '\r'
      else if e = 't' then some '\t'
      else none
    match dec with
    | some c =>
      match pStr r with
      | some (cs, rest2) => some (c :: cs, rest2)
      | none => none
    | none => none
  | '\\' :: [] => none
  | c :: rest =>
    if c.toNat < 0x20 then none
    else
      match pStr rest with
      | some (cs, rest2) => some (c :: cs, rest2)
      | none => none

def digitsVal (ds : List Char) : Nat :=
  ds.foldl (fun a c => a * 10 + (c.toNat - 48)) 0

/-- Decode a JSON number literal, returning mantissa and decimal exponent. -/
def pNum (cs : Str) : Option ((Int × Int) × Str) :=
  let (neg, cs1) :=
    match cs with
    | '-' :: r => (true, r)
    | _ => (false, cs)
  let intPart : Option (List Char × Str) :=
    match cs1 with
    | '0' :: r => some (['0'], r)
    | c :: _ =>
      if c.isDigit then some (cs1.takeWhile Char.isDigit, cs1.dropWhile Char.isDigit)
      else none
    | [] => none
  match intPart with
  | none => none
  | some (ids, r1) =>
    let (fds, r2) :=
      match r1 with
      | '.' :: r =>
        match r with
        | c :: _ => if c.isDigit then (r.takeWhile Char.isDigit, r.dropWhile Char.isDigit) else ([], r1)
        | [] => ([], r1)
      | _ => ([], r1)
    let fracOk : Bool :=
      match r1 with
      | '.' :: _ => !fds.isEmpty
      | _ => true
    if !fracOk then
      some ((condNeg neg (digitsVal ids), 0), r1)
    else
      let expPart : Option (Int × Str) :=
        match r2 with
        | e :: r3 =>
          if e = 'e' ∨ e = 'E' then
            let (esign, r4) :=
              match r3 with
              | '+' :: r5 => ((1 : Int), r5)
              | '-' :: r5 => ((-1 : Int), r5)
              | _ => ((1 : Int), r3)
            match r4 with
            | c :: _ =>
              if c.isDigit then
                some (esign * (digitsVal (r4.takeWhile Char.isDigit) : Int),
                  r4.dropWhile Char.isDigit)
              else none
            | [] => none
          else none
        | [] => none
      let mant : Int := condNeg neg (digitsVal ids * 10 ^ fds.length + digitsVal fds)
      match expPart with
      | some (e, r5) => some ((mant, e - (fds.length : Int)), r5)
      | none => some ((mant, -(fds.length : Int)), r2)
where
  condNeg (b : Bool) (n : Nat) : Int := if b then -(n : Int) else (n : Int)

mutual

/-- Decode one JSON value (leading whitespace allowed), fuel-bounded. -/
def pVal : Nat → Str → Option (Json × Str)
  | 0, _ => none
  | fuel + 1, cs =>
    match skipWs cs with
    | 'n' :: 'u' :: 'l' :: 'l' :: r => some (.null, r)
    | 't' :: 'r' :: 'u' :: 'e' :: r => some (.bool true, r)
    | 'f' :: 'a' :: 'l' :: 's' :: 'e' :: r => some (.bool false, r)
    | '"' :: r =>
      match pStr r with
      | some (content, rest) => some (.str content.asString, rest)
      | none => none
    | '[' :: r =>
      match skipWs r with
      | ']' :: r2 => some (.arr [], r2)
      | r1 =>
        match pItems fuel r1 with
        | some (xs, rest) => some (.arr xs, rest)
        | none => none
    | '\x7b' :: r =>
      match skipWs r with
      | '\x7d' :: r2 => some (.obj [], r2)
      | r1 =>
        match pMembers fuel r1 with
        | some (fs, rest) => some (.obj fs, rest)
        | none => none
    | other =>
      match pNum other with
      | some ((m, e), rest) => some (.num m e, rest)
      | none => none

/-- Decode the elements of a non-empty JSON array (after the opening
bracket and any whitespace), including the closing bracket. -/
def pItems : Nat → Str → Option (List Json × Str)
  | 0, _ => none
  | fuel + 1, cs =>
    match pVal fuel cs with
    | some (v, rest) =>
      match skipWs rest with
      | ',' :: r2 =>
        match pItems fuel (skipWs r2) with
        | some (xs, rest2) => some (v :: xs, rest2)
        | none => none
      | ']' :: r2 => some ([v], r2)
      | _ => none
    | none => none

/-- Decode the members of a non-empty JSON object (after the opening brace
and any whitespace), including the closing brace. -/
def pMembers : Nat → Str → Option (List (String × Json) × Str)
  | 0, _ => none
  | fuel + 1, cs =>
    match cs with
    | '"' :: r =>
      match pStr r with
      | some (key, r1) =>
        match skipWs r1 with
        | ':' :: r2 =>
          match pVal fuel r2 with
          | some (v, rest) =>
            match skipWs rest with
            | ',' :: r3 =>
              match pMembers fuel (skipWs r3) with
              | some (fs, rest2) => some ((key.asString, v) :: fs, rest2)
              | none => none
            | '\x7d' :: r3 => some ([(key.asString, v)], r3)
            | _ => none
          | none => none
        | _ => none
      | none => none
    | _ => none

end

/-- Model of `JSON.parse`: decode one value and require only whitespace to
remain. -/
def jsonDecode (cs : Str) : Option Json :=
  match pVal (2 * cs.length + 2) cs with
  | some (v, rest) => if skipWs rest = [] then some v else none
  | none => none

/-! ## The marker literals used by the regexes in the sources -/

/-- The fixed marker `QUOTES_JSON:`. -/
def marker : Str := "QUOTES_JSON:".data

/-- The literal required by both quote-extraction regexes:
`QUOTES_JSON:{"quotes":[`. -/
def quotesLit : Str := "QUOTES_JSON:\x7b\"quotes\":[".data

/-- The tail of `quotesLit` after the marker: `{"quotes":[`. -/
def quotesHead : Str := "\x7b\"quotes\":[".data

/-- The literal `QUOTES_JSON:{` required by the relay answer regex. -/
def openBraceLit : Str := "QUOTES_JSON:\x7b".data

/-- The array-object closing pattern `]}`. -/
def closeArr : Str := "]\x7d".data

/-- `undefined || []` and friends: JavaScript `x || []` on the result of a
property access, defaulting to an empty array on `undefined` or any falsy
value. -/
def jsOrEmptyArr (o : Option Json) : Json :=
  match o with
  | some v => if jsTruthy v then v else .arr []
  | none => .arr []

/-- `x || ''`: default to the empty string on `undefined` or falsy. -/
def jsOrEmptyStr (o : Option Json) : Json :=
  match o with
  | some v => if jsTruthy v then v else .str ""
  | none => .str ""

/-! ## Client response parser (`App.tsx`, `onQuery` lines 124-133) -/

/-- The capture of `fullText.match(/QUOTES_JSON:(\{"quotes":\[.*)/s)`:
everything from the first occurrence of `QUOTES_JSON:{"quotes":[` starting
at the opening brace, to the end of the text. -/
def clientCapture (text : Str) : Option Str :=
  match findSub quotesLit text with
  | some (_, post) => some (quotesHead ++ post)
  | none => none

/-- `raw = jsonMatch[1].replace(/\]\}.*$/s, ']}')`: truncate the capture
just after the first occurrence of `]}` (no-op when `]}` is absent). -/
def chopAfterClose (cap : Str) : Str :=
  match findSub closeArr cap with
  | some (pre, _) => pre ++ closeArr
  | none => cap

/-- The client's attempted decode of the trailer: `JSON.parse(raw)`.
`none` models the `catch`-ed exception. -/
def clientDecodeAttempt (text : Str) : Option Json :=
  match clientCapture text with
  | some cap => jsonDecode (chopAfterClose cap)
  | none => none

/-- `parsedQuotes`: `JSON.parse(raw).quotes || []`, with `[]` kept on a
missing match or a parse exception. -/
def clientQuotes (text : Str) : Json :=
  match clientDecodeAttempt text with
  | some j => jsOrEmptyArr (jsGet j "quotes")
  | none => .arr []

/-- The client answer: `fullText.replace(/QUOTES_JSON:.*$/s, '').trim()` -
cut at the first occurrence of the marker (to the end of the text) and
trim. -/
def clientAnswer (text : Str) : Str :=
  match findSub marker text with
  | some (pre, _) => jsTrim pre
  | none => jsTrim text

/-! ## Relay response parser (Express `POST /api/query`, lines 78-85) -/

/-- The capture of `fullText.match(/QUOTES_JSON:(\{"quotes":\[.*?\]\})/s)`:
from the first occurrence of `QUOTES_JSON:{"quotes":[`, lazily up to and
including the first following `]}` (no match when no `]}` follows). -/
def relayCapture (text : Str) : Option Str :=
  match findSub quotesLit text with
  | some (_, post) =>
    match findSub closeArr post with
    | some (mid, _) => some (quotesHead ++ mid ++ closeArr)
    | none => none
  | none => none

/-- The relay's attempted decode of the captured fragment. -/
def relayDecodeAttempt (text : Str) : Option Json :=
  match relayCapture text with
  | some cap => jsonDecode cap
  | none => none

/-- Relay `quotes`: `JSON.parse(jsonMatch[1]).quotes || []`. -/
def relayQuotes (text : Str) : Json :=
  match relayDecodeAttempt text with
  | some j => jsOrEmptyArr (jsGet j "quotes")
  | none => .arr []

/-- The relay answer: `fullText.replace(/QUOTES_JSON:\{.*?\}/s, '').trim()`
- remove from the first occurrence of `QUOTES_JSON:{` lazily through the
first following `}` (no-op when there is no following `}`), then trim. -/
def relayAnswer (text : Str) : Str :=
  match findSub openBraceLit text with
  | some (pre, post) =>
    match findSub ['\x7d'] post with
    | some (_, rest) => jsTrim (pre ++ rest)
    | none => jsTrim text
  | none => jsTrim text

/-- Modelled from the spec: the Response Parser's answer invariant as the
spec words it - the reply with the substring starting at the first
occurrence of the marker and extending to the end removed, then
whitespace-trimmed.  Used to compare the two implementations against the
spec's statement. -/
def specAnswerCut (text : Str) : Str :=
  match findSub marker text with
  | some (pre, _) => jsTrim pre
  | none => jsTrim text

/-! ## Provider adapter (`App.tsx`, `callAI`) -/

inductive Provider where
  | openai : Provider
  | claude : Provider
  | gemini : Provider
deriving DecidableEq

/-- One HTTP request, as shaped by `callAI` before `fetch`. -/
structure HttpRequest where
  url : String
  verb : String
  headers : List (String × String)
  body : Json

/-- The request `callAI` sends for each provider (`JSON.stringify` of the
body is modelled by keeping the body as a JSON value). -/
def clientRequest (p : Provider) (apiKey systemPrompt userMessage : String) : HttpRequest :=
  match p with
  | .openai =>
    { url := "/openai/v1/chat/completions"
      verb := "POST"
      headers := [("Content-Type", "application/json"),
                  ("Authorization", "Bearer " ++ apiKey)]
      body := .obj [("model", .str "gpt-4o"), ("max_tokens", .num 4000 0),
        ("messages", .arr
          [.obj [("role", .str "system"), ("content", .str systemPrompt)],
           .obj [("role", .str "user"), ("content", .str userMessage)]])] }
  | .claude =>
    { url := "/claude/v1/messages"
      verb := "POST"
      headers := [("Content-Type", "application/json"), ("x-api-key", apiKey),
                  ("anthropic-version", "2023-06-01"),
                  ("anthropic-dangerous-direct-browser-access", "true")]
      body := .obj [("model", .str "claude-sonnet-4-20250514"),
        ("max_tokens", .num 4000 0), ("system", .str systemPrompt),
        ("messages", .arr
          [.obj [("role", .str "user"), ("content", .str userMessage)]])] }
  | .gemini =>
    { url := "/gemini/v1beta/models/gemini-1.5-pro:generateContent?key=" ++ apiKey
      verb := "POST"
      headers := [("Content-Type", "application/json")]
      body := .obj [("contents", .arr [.obj [("parts", .arr
          [.obj [("text", .str (systemPrompt ++ "\n\n" ++ userMessage))]])]]),
        ("generationConfig", .obj [("maxOutputTokens", .num 4000 0)])] }

/-- The message of the TypeError thrown by a property access on
`undefined`; the sources never inspect its text, so it is a constant. -/
def tyErr : String := "TypeError"

/-- Reply extraction per provider: `data.choices[0].message.content || ''`
and the analogous chains.  An access on an undefined intermediate throws
(modelled as `.error`); only the final field is guarded by `|| ''`. -/
def extractReply (p : Provider) (data : Json) : Except String Json :=
  match p with
  | .openai =>
    match jsGet data "choices" with
    | none => .error tyErr
    | some c =>
      match jsIndex c 0 with
      | none => .error tyErr
      | some m =>
        match jsGet m "message" with
        | none => .error tyErr
        | some msg => .ok (jsOrEmptyStr (jsGet msg "content"))
  | .claude =>
    match jsGet data "content" with
    | none => .error tyErr
    | some c =>
      match jsIndex c 0 with
      | none => .error tyErr
      | some b => .ok (jsOrEmptyStr (jsGet b "text"))
  | .gemini =>
    match jsGet data "candidates" with
    | none => .error tyErr
    | some c =>
      match jsIndex c 0 with
      | none => .error tyErr
      | some cand =>
        match jsGet cand "content" with
        | none => .error tyErr
        | some content =>
          match jsGet content "parts" with
          | none => .error tyErr
          | some parts =>
            match jsIndex parts 0 with
            | none => .error tyErr
            | some part => .ok (jsOrEmptyStr (jsGet part "text"))

/-- The generic per-provider fallback error strings. -/
def fallbackMsg : Provider → String
  | .openai => "OpenAI error"
  | .claude => "Claude error"
  | .gemini => "Gemini error"

/-- The optional chain `data.error?.message`. -/
def errDataMessage (data : Json) : Option Json :=
  (jsGet data "error").bind fun e => jsGet e "message"

/-- `String(v)` as applied by the `Error` constructor to its argument.
Exact for strings, booleans and null; numbers and containers are rendered
in a simplified fixed way (the sources never reach those cases with a
non-string value that is later compared). -/
def jsToStr : Json → String
  | .str s => s
  | .null => "null"
  | .bool b => cond b "true" "false"
  | .num m e => toString m ++ "e" ++ toString e
  | .arr _ => ""
  | .obj _ => "[object Object]"

/-- The message of the error thrown on a non-success HTTP status:
`data.error?.message || '<Provider> error'`. -/
def errorMessageOf (p : Provider) (data : Json) : String :=
  match errDataMessage data with
  | some v => if jsTruthy v then jsToStr v else fallbackMsg p
  | none => fallbackMsg p

/-- Outcome of `callAI` given the HTTP success flag and the parsed JSON
response body: throws on a non-success status, else extracts the reply. -/
def clientCall (p : Provider) (resOk : Bool) (data : Json) : Except String Json :=
  if resOk then extractReply p data else .error (errorMessageOf p data)

/-! ## Session state (`App`) -/

structure Doc where
  id : String
  name : String
  size : Nat
  uploadedAt : String
  text : String
deriving DecidableEq

structure AppState where
  provider : Provider
  apiKey : String
  docs : List Doc
  pasteText : String
  pasteName : String
  prompt : String
  answer : String
  quotes : Json
  strictMode : Bool
  loading : Bool
  error : String
  preferredQuote : String

/-- `clearAll`: `setDocs([]); setAnswer(''); setQuotes([]);
setPreferredQuote('');`. -/
def clearAll (st : AppState) : AppState :=
  { st with docs := [], answer := "", quotes := Json.arr [],
            preferredQuote := "" }

/-- `text.slice(0, cap)` on a document body. -/
def jsSlice (s : String) (cap : Nat) : String := (s.data.take cap).asString

/-- One context block: `--- ${d.name} ---\n${d.text.slice(0, cap)}`. -/
def docBlock (cap : Nat) (d : Doc) : String :=
  "--- " ++ d.name ++ " ---\n" ++ jsSlice d.text cap

/-- `Array.prototype.join(sep)`: empty string on an empty array, else the
first element followed by `sep`-prefixed remaining elements. -/
def jsJoin (sep : String) : List String → String
  | [] => ""
  | x :: xs => xs.foldl (fun acc y => acc ++ (sep ++ y)) x

/-- The client context string (per-document cap 8000 characters). -/
def clientContext (docs : List Doc) : String :=
  jsJoin "\n\n" (docs.map (docBlock 8000))

/-- The relay context string (per-document cap 15000 characters). -/
def relayContext (docs : List Doc) : String :=
  jsJoin "\n\n" (docs.map (docBlock 15000))

/-- The spec's description of the context: the concatenation, in original
order, of one block per document, with consecutive blocks separated by a
blank line. -/
def specContextConcat (cap : Nat) : List Doc → String
  | [] => ""
  | [d] => "--- " ++ d.name ++ " ---\n" ++ jsSlice d.text cap
  | d :: rest =>
    "--- " ++ d.name ++ " ---\n" ++ jsSlice d.text cap ++ "\n\n" ++
      specContextConcat cap rest

/-- `onQuery` as a state transition.  Inputs beyond the state are the HTTP
outcome of the single `fetch` (`resOk`, parsed body `data`).  The returned
flag records whether a network call was issued.  The guard is the early
return `if (!prompt.trim() || !docs.length || !apiKey.trim()) return;`. -/
def onQuery (st : AppState) (resOk : Bool) (data : Json) : AppState × Bool :=
  if jsTrimS st.prompt = "" ∨ st.docs = [] ∨ jsTrimS st.apiKey = "" then
    (st, false)
  else
    match clientCall st.provider resOk data with
    | .ok (Json.str s) =>
      ({ st with loading := false, error := "",
                 answer := (clientAnswer s.data).asString,
                 quotes := clientQuotes s.data }, true)
    | .ok _ =>
      ({ st with loading := false, error := tyErr, answer := "",
                 quotes := Json.arr [] }, true)
    | .error m =>
      ({ st with loading := false, error := m, answer := "",
                 quotes := Json.arr [] }, true)

/-! ## Relay endpoint (`POST /api/query`) -/

/-- The HTTP response sent by the relay query endpoint. -/
structure RelayResp where
  status : Nat
  success : Bool
  answer : Option String
  quotes : Option Json
  errMsg : Option String

/-- The fixed empty-corpus reply body text. -/
def noDocsAnswer : String := "No documents loaded. Please paste your text first."

/-- The relay's upstream call (always provider A with a server credential):
non-success status throws `data.error?.message || 'OpenAI error'`, else the
reply is extracted as in the client. -/
def relayCall (resOk : Bool) (data : Json) : Except String Json :=
  if resOk then extractReply .openai data
  else .error (errorMessageOf .openai data)

/-- The relay `POST /api/query` handler: validation, the fixed empty-corpus
response, then the upstream call and the relay parse.  The returned flag
records whether the provider was contacted. -/
def relayQuery (corpus : List Doc) (prompt : String) (_strict : Bool)
    (resOk : Bool) (data : Json) : RelayResp × Bool :=
  if jsTrimS prompt = "" then
    (⟨400, false, none, none, some "Prompt is required"⟩, false)
  else if corpus = [] then
    (⟨200, true, some noDocsAnswer, some (Json.arr []), none⟩, false)
  else
    match relayCall resOk data with
    | .ok (Json.str s) =>
      (⟨200, true, some (relayAnswer s.data).asString,
        some (relayQuotes s.data), none⟩, true)
    | .ok _ => (⟨500, false, none, none, some tyErr⟩, true)
    | .error m => (⟨500, false, none, none, some m⟩, true)

/-! ## Properties of `findSub` and `jsTrim` -/

/-- `pat` occurs as a contiguous substring of `text`. -/
def Occurs (pat text : Str) : Prop := ∃ a b, text = a ++ (pat ++ b)

theorem not_occurs_of_ne_nil {pat b : Str} (hne : pat ≠ [])
    (hab : ([] : Str) = [] ++ (pat ++ b)) : False := by
  simp only [List.nil_append] at hab
  exact hne (List.append_eq_nil.mp hab.symm).1

theorem findSub_some_split (pat : Str) :
    ∀ (text pre post : Str), findSub pat text = some (pre, post) →
      text = pre ++ (pat ++ post) := by
  intro text
  induction text with
  | nil =>
    intro pre post h
    simp only [findSub] at h
    split at h
    · rename_i hp
      rw [List.isEmpty_iff] at hp
      obtain ⟨h1, h2⟩ : ([] : Str) = pre ∧ ([] : Str) = post := by
        simpa using h
      subst hp; subst h1; subst h2; rfl
    · exact absurd h (by simp)
  | cons c cs ih =>
    intro pre post h
    simp only [findSub] at h
    split at h
    · rename_i hp
      obtain ⟨t, ht⟩ := List.isPrefixOf_iff_prefix.mp hp
      obtain ⟨h1, h2⟩ : ([] : Str) = pre ∧ (c :: cs).drop pat.length = post := by
        simpa using h
      subst h1; subst h2
      rw [← ht, List.nil_append, List.drop_left]
    · cases hfs : findSub pat cs with
      | none => rw [hfs] at h; exact absurd h (by simp)
      | some pr =>
        obtain ⟨pre1, post1⟩ := pr
        rw [hfs] at h
        obtain ⟨h1, h2⟩ : c :: pre1 = pre ∧ post1 = post := by simpa using h
        subst h1; subst h2
        have hcs := ih pre1 post1 hfs
        rw [List.cons_append, ← hcs]

theorem occurs_cons (pat : Str) (c : Char) (cs : Str) :
    Occurs pat (c :: cs) ↔ pat <+: (c :: cs) ∨ Occurs pat cs := by
  constructor
  · rintro ⟨a, b, hab⟩
    cases a with
    | nil => exact Or.inl ⟨b, by simpa using hab.symm⟩
    | cons x a1 =>
      obtain ⟨-, h2⟩ : c = x ∧ cs = a1 ++ (pat ++ b) := by simpa using hab
      exact Or.inr ⟨a1, b, h2⟩
  · rintro (⟨t, ht⟩ | ⟨a, b, hab⟩)
    · exact ⟨[], t, by simpa using ht.symm⟩
    · exact ⟨c :: a, b, by simp [hab]⟩

theorem findSub_none_iff (pat : Str) (hne : pat ≠ []) (text : Str) :
    findSub pat text = none ↔ ¬ Occurs pat text := by
  induction text with
  | nil =>
    simp only [findSub, List.isEmpty_iff]
    constructor
    · rintro - ⟨a, b, hab⟩
      cases a with
      | nil => exact not_occurs_of_ne_nil hne hab
      | cons x a1 => exact absurd hab (by simp)
    · intro _
      simp [hne]
  | cons c cs ih =>
    simp only [findSub]
    constructor
    · intro h
      split at h
      · exact absurd h (by simp)
      · rename_i hp
        rw [occurs_cons]
        rintro (hpre | hocc)
        · exact hp (List.isPrefixOf_iff_prefix.mpr hpre)
        · cases hfs : findSub pat cs with
          | none => exact (ih.mp hfs) hocc
          | some pr =>
            obtain ⟨x, y⟩ := pr
            rw [hfs] at h
            exact absurd h (by simp)
    · intro hno
      rw [occurs_cons] at hno
      push_neg at hno
      obtain ⟨hp1, hp2⟩ := hno
      have hb : pat.isPrefixOf (c :: cs) = false := by
        cases hb2 : pat.isPrefixOf (c :: cs) with
        | true => exact absurd (List.isPrefixOf_iff_prefix.mp hb2) hp1
        | false => rfl
      rw [if_neg (by simp [hb]), ih.mpr hp2]

theorem findSub_first (pat : Str) (hne : pat ≠ []) :
    ∀ (text pre post : Str), findSub pat text = some (pre, post) →
      ¬ Occurs pat pre := by
  intro text
  induction text with
  | nil =>
    intro pre post h
    simp only [findSub] at h
    split at h
    · obtain ⟨h1, h2⟩ : ([] : Str) = pre ∧ ([] : Str) = post := by simpa using h
      subst h1
      rintro ⟨a, b, hab⟩
      cases a with
      | nil => exact not_occurs_of_ne_nil hne hab
      | cons x a1 => exact absurd hab (by simp)
    · exact absurd h (by simp)
  | cons c cs ih =>
    intro pre post h
    simp only [findSub] at h
    split at h
    · obtain ⟨h1, h2⟩ : ([] : Str) = pre ∧ (c :: cs).drop pat.length = post := by
        simpa using h
      subst h1
      rintro ⟨a, b, hab⟩
      cases a with
      | nil => exact not_occurs_of_ne_nil hne hab
      | cons x a1 => exact absurd hab (by simp)
    · rename_i hp
      cases hfs : findSub pat cs with
      | none => rw [hfs] at h; exact absurd h (by simp)
      | some pr =>
        obtain ⟨pre1, post1⟩ := pr
        rw [hfs] at h
        obtain ⟨h1, h2⟩ : c :: pre1 = pre ∧ post1 = post := by simpa using h
        subst h1
        rw [occurs_cons]
        rintro (⟨t, ht⟩ | hocc)
        · apply hp
          apply List.isPrefixOf_iff_prefix.mpr
          have hcs : cs = pre1 ++ (pat ++ post1) :=
            findSub_some_split pat cs pre1 post1 hfs
          refine ⟨t ++ (pat ++ post1), ?_⟩
          have hdec : c :: cs = (c :: pre1) ++ (pat ++ post1) := by simp [hcs]
          rw [hdec, ← ht]
          simp
        · exact ih pre1 post1 hfs hocc

theorem occurs_mono {pat q text : Str} (h : Occurs (pat ++ q) text) :
    Occurs pat text := by
  obtain ⟨a, b, hab⟩ := h
  exact ⟨a, q ++ b, by simp [hab]⟩

theorem occurs_infix {pat s : Str} (x y : Str) (h : Occurs pat s) :
    Occurs pat (x ++ (s ++ y)) := by
  obtain ⟨a, b, hab⟩ := h
  exact ⟨x ++ a, b ++ y, by simp [hab]⟩

theorem dropWhile_decomp (p : Char → Bool) (l : Str) :
    ∃ x, l = x ++ l.dropWhile p := by
  induction l with
  | nil => exact ⟨[], rfl⟩
  | cons c cs ih =>
    by_cases hc : p c
    · obtain ⟨x, hx⟩ := ih
      exact ⟨c :: x, by simp [List.dropWhile, hc, ← hx]⟩
    · exact ⟨[], by simp [List.dropWhile, hc]⟩

theorem dropTrailing_decomp (p : Char → Bool) (l : Str) :
    ∃ y, l = dropTrailing p l ++ y := by
  obtain ⟨x, hx⟩ := dropWhile_decomp p l.reverse
  refine ⟨x.reverse, ?_⟩
  have := congrArg List.reverse hx
  simpa [dropTrailing] using this

theorem jsTrim_decomp (l : Str) : ∃ x y, l = x ++ (jsTrim l ++ y) := by
  obtain ⟨x, hx⟩ := dropWhile_decomp isJsSpace l
  obtain ⟨y, hy⟩ := dropTrailing_decomp isJsSpace (l.dropWhile isJsSpace)
  exact ⟨x, y, by rw [jsTrim, ← hy, ← hx]⟩

theorem not_occurs_jsTrim {pat l : Str} (h : ¬ Occurs pat l) :
    ¬ Occurs pat (jsTrim l) := by
  intro hocc
  obtain ⟨x, y, hxy⟩ := jsTrim_decomp l
  exact h (hxy ▸ occurs_infix x y hocc)

theorem dropWhile_dropWhile (p : Char → Bool) (l : Str) :
    (l.dropWhile p).dropWhile p = l.dropWhile p := by
  induction l with
  | nil => rfl
  | cons c cs ih =>
    by_cases hc : p c
    · simpa [List.dropWhile, hc] using ih
    · simp [List.dropWhile, hc]

theorem dropTrailing_idem (p : Char → Bool) (l : Str) :
    dropTrailing p (dropTrailing p l) = dropTrailing p l := by
  simp [dropTrailing, dropWhile_dropWhile]

theorem dropWhile_head_false (p : Char → Bool) :
    ∀ (l : Str) (c : Char) (r : Str), l.dropWhile p = c :: r → p c = false := by
  intro l
  induction l with
  | nil => intro c r h; cases h
  | cons d ds ih =>
    intro c r h
    by_cases hd : p d
    · exact ih c r (by simpa [List.dropWhile, hd] using h)
    · rw [List.dropWhile_cons_of_neg (by simpa using hd)] at h
      cases h
      simpa using hd

theorem dropWhile_dropTrailing (p : Char → Bool) (l : Str) :
    (dropTrailing p (l.dropWhile p)).dropWhile p
      = dropTrailing p (l.dropWhile p) := by
  cases h : dropTrailing p (l.dropWhile p) with
  | nil => rfl
  | cons c r =>
    obtain ⟨y, hy⟩ := dropTrailing_decomp p (l.dropWhile p)
    rw [h] at hy
    have hc : p c = false :=
      dropWhile_head_false p l c (r ++ y) (by simpa using hy)
    exact List.dropWhile_cons_of_neg (by simpa using hc)

theorem jsTrim_idem (l : Str) : jsTrim (jsTrim l) = jsTrim l := by
  show dropTrailing isJsSpace ((dropTrailing isJsSpace
    (l.dropWhile isJsSpace)).dropWhile isJsSpace) = _
  rw [dropWhile_dropTrailing, dropTrailing_idem]
  rfl

/-! ## Shared facts about the literals -/

theorem markerNe : marker ≠ [] := by decide

theorem quotesLit_eq : quotesLit = marker ++ quotesHead := by decide

theorem openBraceLit_eq : openBraceLit = marker ++ ['\x7b'] := by decide

/-! ## Claim C4 -/

/-- C4: for every reply text that does not contain the marker
`QUOTES_JSON:`, both the client and the relay parse yield an empty quotes
list and an answer equal to the whitespace-trimmed input, otherwise
unchanged. -/
theorem c4_no_marker (text : Str) (h : findSub marker text = none) :
    clientAnswer text = jsTrim text ∧ clientQuotes text = Json.arr [] ∧
    relayAnswer text = jsTrim text ∧ relayQuotes text = Json.arr [] := by
  have hno : ¬ Occurs marker text := (findSub_none_iff marker markerNe text).mp h
  have hq : findSub quotesLit text = none := by
    rw [findSub_none_iff quotesLit (by decide) text]
    intro hocc
    exact hno (occurs_mono (quotesLit_eq ▸ hocc))
  have hob : findSub openBraceLit text = none := by
    rw [findSub_none_iff openBraceLit (by decide) text]
    intro hocc
    exact hno (occurs_mono (openBraceLit_eq ▸ hocc))
  refine ⟨?_, ?_, ?_, ?_⟩
  · simp only [clientAnswer, h]
  · simp only [clientQuotes, clientDecodeAttempt, clientCapture, hq]
  · simp only [relayAnswer, hob]
  · simp only [relayQuotes, relayDecodeAttempt, relayCapture, hq]

theorem c4_witness :
    clientAnswer "  plain reply  ".data = "plain reply".data ∧
    clientQuotes "  plain reply  ".data = Json.arr [] ∧
    relayAnswer "  plain reply  ".data = "plain reply".data ∧
    relayQuotes "  plain reply  ".data = Json.arr [] := by
  obtain ⟨h1, h2, h3, h4⟩ := c4_no_marker "  plain reply  ".data (by decide)
  refine ⟨?_, h2, ?_, h4⟩
  · rw [h1]; decide
  · rw [h3]; decide

/-! ## Claim C5 -/

/-- C5 counterexample: the relay parse is not idempotent on its own answer
output - deleting the lazily matched span can create a fresh
marker-and-brace occurrence, which a second run then also removes. -/
theorem c5_relay_not_idempotent :
    relayAnswer (relayAnswer "QUOTES_JSQUOTES_JSON:\x7ba\x7dON:\x7bb\x7d".data)
      ≠ relayAnswer "QUOTES_JSQUOTES_JSON:\x7ba\x7dON:\x7bb\x7d".data := by
  decide

/-- C5 (amended): the client parse is idempotent on its own answer output -
running it again on the answer of a first run returns the same answer and
an empty quotes list. -/
theorem c5_client_answer_idempotent (text : Str) :
    clientAnswer (clientAnswer text) = clientAnswer text ∧
    clientQuotes (clientAnswer text) = Json.arr [] := by
  have hansNo : ¬ Occurs marker (clientAnswer text) := by
    cases hfs : findSub marker text with
    | none =>
      have hn := (findSub_none_iff marker markerNe text).mp hfs
      simpa only [clientAnswer, hfs] using not_occurs_jsTrim hn
    | some pr =>
      obtain ⟨pre, post⟩ := pr
      have hf := findSub_first marker markerNe text pre post hfs
      simpa only [clientAnswer, hfs] using not_occurs_jsTrim hf
  have hnone : findSub marker (clientAnswer text) = none :=
    (findSub_none_iff marker markerNe (clientAnswer text)).mpr hansNo
  constructor
  · cases hfs : findSub marker text with
    | none =>
      simp only [clientAnswer, hfs] at hnone ⊢
      simp only [hnone, jsTrim_idem]
    | some pr =>
      obtain ⟨pre, post⟩ := pr
      simp only [clientAnswer, hfs] at hnone ⊢
      simp only [hnone, jsTrim_idem]
  · have hq : findSub quotesLit (clientAnswer text) = none := by
      rw [findSub_none_iff quotesLit (by decide) (clientAnswer text)]
      intro hocc
      exact hansNo (occurs_mono (quotesLit_eq ▸ hocc))
    simp only [clientQuotes, clientDecodeAttempt, clientCapture, hq]

/-! ## Claim C1 -/

/-- A provider reply whose trailer is truncated mid-JSON. -/
def truncReply : String := "hi QUOTES_JSON:\x7b\"quotes\":["

/-- C1: on a truncated trailer the relay answer keeps the whole
marker-and-trailer text (its replace regex needs a closing brace), while
the spec's invariant - and the client - cut at the marker's start
position. -/
theorem c1_relay_truncated_cut_divergence :
    relayAnswer truncReply.data = truncReply.data ∧
    specAnswerCut truncReply.data = "hi".data ∧
    clientAnswer truncReply.data = "hi".data ∧
    relayAnswer truncReply.data ≠ specAnswerCut truncReply.data := by
  refine ⟨by decide, by decide, by decide, by decide⟩

/-! ## Claim C2 -/

/-- The worked example reply from the spec. -/
def exReply : String :=
  "[1] \"Hello world\" (A, p. 1)\nQUOTES_JSON:\x7b\"quotes\":[\x7b\"id\":\"q1\",\"quote\":\"Hello world\",\"source\":\"A\",\"page\":1,\"score\":0.9\x7d]\x7d"

/-- The answer the spec expects for `exReply`. -/
def exAnswerText : String := "[1] \"Hello world\" (A, p. 1)"

/-- The single decoded quote object of `exReply`. -/
def exQuoteObj : Json :=
  Json.obj [("id", Json.str "q1"), ("quote", Json.str "Hello world"),
    ("source", Json.str "A"), ("page", Json.num 1 0),
    ("score", Json.num 9 (-1))]

/-- C2 counterexample: on the spec's own worked example the relay answer
retains a dangling `]\x7d` residue (its replace regex stops at the first
closing brace), so it is not the trimmed prefix the claim states. -/
theorem c2_relay_worked_example_residue :
    relayAnswer exReply.data = (exAnswerText ++ "\n]\x7d").data ∧
    relayAnswer exReply.data ≠ exAnswerText.data := by
  refine ⟨by decide, by decide⟩

/-- C2 (amended): when the reply splits at the first marker occurrence and
the client's decode attempt on the extracted fragment succeeds with an
object whose `quotes` member is an array, the client parse returns the
trimmed prefix as answer and exactly that array, in order, as quotes. -/
theorem c2_client_decoded_trailer (text pre post : Str)
    (fs : List (String × Json)) (qs : List Json)
    (hm : findSub marker text = some (pre, post))
    (hd : clientDecodeAttempt text = some (Json.obj fs))
    (hq : objLookupLast fs "quotes" = some (Json.arr qs)) :
    clientAnswer text = jsTrim pre ∧ clientQuotes text = Json.arr qs := by
  constructor
  · simp only [clientAnswer, hm]
  · simp only [clientQuotes, hd, jsGet, hq, jsOrEmptyArr, jsTruthy]
    exact if_pos trivial

theorem c2_witness :
    clientAnswer exReply.data = exAnswerText.data ∧
    clientQuotes exReply.data = Json.arr [exQuoteObj] := by
  have h := c2_client_decoded_trailer exReply.data
    "[1] \"Hello world\" (A, p. 1)\n".data
    "\x7b\"quotes\":[\x7b\"id\":\"q1\",\"quote\":\"Hello world\",\"source\":\"A\",\"page\":1,\"score\":0.9\x7d]\x7d".data
    [("quotes", Json.arr [exQuoteObj])] [exQuoteObj] (by decide) rfl rfl
  refine ⟨?_, h.2⟩
  rw [h.1]
  decide

/-! ## Claim C3 -/

/-- C3: a malformed or truncated trailer (a failing decode attempt) gives
an empty quotes list in both the client and the relay; the run-query
operation still succeeds - no error state is entered, the answer is still
produced, and the relay still replies with a 200 success body - so the
parse failure is never surfaced. -/
theorem c3_malformed_trailer_degrades :
    (∀ text : Str, clientDecodeAttempt text = none →
      clientQuotes text = Json.arr []) ∧
    (∀ text : Str, relayDecodeAttempt text = none →
      relayQuotes text = Json.arr []) ∧
    (∀ (st : AppState) (data : Json) (s : String),
      ¬ (jsTrimS st.prompt = "" ∨ st.docs = [] ∨ jsTrimS st.apiKey = "") →
      clientCall st.provider true data = .ok (Json.str s) →
      (onQuery st true data).1.error = "" ∧
      (onQuery st true data).1.answer = (clientAnswer s.data).asString ∧
      (onQuery st true data).1.quotes = clientQuotes s.data) ∧
    (∀ (corpus : List Doc) (prompt : String) (strict : Bool) (data : Json)
      (s : String), jsTrimS prompt ≠ "" → corpus ≠ [] →
      relayCall true data = .ok (Json.str s) →
      relayQuery corpus prompt strict true data =
        (⟨200, true, some (relayAnswer s.data).asString,
          some (relayQuotes s.data), none⟩, true)) := by
  refine ⟨?_, ?_, ?_, ?_⟩
  · intro text h
    simp only [clientQuotes, h]
  · intro text h
    simp only [relayQuotes, h]
  · intro st data s hg hc
    simp [onQuery, if_neg hg, hc]
  · intro corpus prompt strict data s hp hc hcall
    simp only [relayQuery, if_neg hp, if_neg hc, hcall]

/-- A reply whose trailer is present but malformed. -/
def malfReply : String := "x QUOTES_JSON:\x7b\"quotes\":[oops"

/-- A canonical provider-A success body whose reply text is `s`. -/
def mkOpenaiData (s : String) : Json :=
  Json.obj [("choices", Json.arr [Json.obj [("message",
    Json.obj [("content", Json.str s)])]])]

/-- A state that passes the client validation guard. -/
def readyState : AppState :=
  ⟨Provider.openai, "key", [⟨"1", "A", 11, "t", "Hello world"⟩], "", "",
    "What is this?", "", Json.arr [], true, false, "", ""⟩

theorem c3_witness :
    clientQuotes malfReply.data = Json.arr [] ∧
    relayQuotes malfReply.data = Json.arr [] ∧
    ((onQuery readyState true (mkOpenaiData malfReply)).1.error = "" ∧
     (onQuery readyState true (mkOpenaiData malfReply)).1.answer =
       (clientAnswer malfReply.data).asString ∧
     (onQuery readyState true (mkOpenaiData malfReply)).1.quotes =
       clientQuotes malfReply.data) ∧
    relayQuery readyState.docs "q" true true (mkOpenaiData malfReply) =
      (⟨200, true, some (relayAnswer malfReply.data).asString,
        some (relayQuotes malfReply.data), none⟩, true) := by
  obtain ⟨h1, h2, h3, h4⟩ := c3_malformed_trailer_degrades
  refine ⟨h1 malfReply.data rfl, h2 malfReply.data rfl, ?_, ?_⟩
  · exact h3 readyState (mkOpenaiData malfReply) malfReply (by decide) rfl
  · exact h4 readyState.docs "q" true (mkOpenaiData malfReply) malfReply
      (by decide) (by decide) rfl

/-! ## Claim C6 -/

/-- The tail of a JavaScript `Array.join`: separator-prefixed elements. -/
def joinTail (sep : String) : List String → String
  | [] => ""
  | y :: ys => sep ++ y ++ joinTail sep ys

theorem foldl_append_joinTail (sep : String) :
    ∀ (xs : List String) (a : String),
      xs.foldl (fun acc y => acc ++ (sep ++ y)) a = a ++ joinTail sep xs := by
  intro xs
  induction xs with
  | nil => intro a; simp [joinTail, String.append_empty]
  | cons y ys ih =>
    intro a
    simp only [List.foldl_cons, joinTail]
    rw [ih (a ++ (sep ++ y))]
    simp [String.append_assoc]

theorem joinTail_cons_eq (sep y : String) (ys : List String) :
    joinTail sep (y :: ys) = sep ++ jsJoin sep (y :: ys) := by
  simp only [joinTail, jsJoin, foldl_append_joinTail, String.append_assoc]

theorem specContext_eq (cap : Nat) :
    ∀ (docs : List Doc), docs ≠ [] →
      jsJoin "\n\n" (docs.map (docBlock cap)) = specContextConcat cap docs := by
  intro docs
  induction docs with
  | nil => intro h; exact absurd rfl h
  | cons d rest ih =>
    intro _
    rw [List.map_cons]
    show (rest.map (docBlock cap)).foldl
      (fun acc y => acc ++ ("\n\n" ++ y)) (docBlock cap d) = _
    rw [foldl_append_joinTail]
    cases rest with
    | nil =>
      simp [joinTail, specContextConcat, docBlock, String.append_empty]
    | cons e rest2 =>
      rw [List.map_cons, joinTail_cons_eq, ← List.map_cons]
      rw [ih (by simp)]
      simp [specContextConcat, docBlock, String.append_assoc]

/-- C6: for every non-empty document sequence the constructed context is
the in-order concatenation of one `--- name ---` block per document, each
body truncated to the per-document cap (client 8000, relay 15000), with
consecutive blocks separated by a blank line. -/
theorem c6_context_blocks (docs : List Doc) (h : docs ≠ []) :
    clientContext docs = specContextConcat 8000 docs ∧
    relayContext docs = specContextConcat 15000 docs :=
  ⟨specContext_eq 8000 docs h, specContext_eq 15000 docs h⟩

theorem c6_witness :
    clientContext [⟨"1", "A", 11, "t", "Hello world"⟩,
      ⟨"2", "B", 2, "t", "Hi"⟩] =
      specContextConcat 8000 [⟨"1", "A", 11, "t", "Hello world"⟩,
        ⟨"2", "B", 2, "t", "Hi"⟩] ∧
    relayContext [⟨"1", "A", 11, "t", "Hello world"⟩,
      ⟨"2", "B", 2, "t", "Hi"⟩] =
      specContextConcat 15000 [⟨"1", "A", 11, "t", "Hello world"⟩,
        ⟨"2", "B", 2, "t", "Hi"⟩] :=
  c6_context_blocks _ (by decide)

/-! ## Claim C7 -/

/-- C7: an empty or whitespace-only prompt, an empty document set, or an
empty or whitespace-only credential blocks `onQuery` entirely - no network
call, state unchanged; the relay answers an empty-corpus query with the
fixed no-documents success body and never contacts the provider on an
empty corpus. -/
theorem c7_validation_blocks :
    (∀ (st : AppState) (resOk : Bool) (data : Json),
      jsTrimS st.prompt = "" ∨ st.docs = [] ∨ jsTrimS st.apiKey = "" →
      onQuery st resOk data = (st, false)) ∧
    (∀ (prompt : String) (strict resOk : Bool) (data : Json),
      jsTrimS prompt ≠ "" →
      relayQuery [] prompt strict resOk data =
        (⟨200, true, some noDocsAnswer, some (Json.arr []), none⟩, false)) ∧
    (∀ (prompt : String) (strict resOk : Bool) (data : Json),
      (relayQuery [] prompt strict resOk data).2 = false) := by
  refine ⟨?_, ?_, ?_⟩
  · intro st resOk data h
    simp only [onQuery, if_pos h]
  · intro prompt strict resOk data h
    simp [relayQuery, if_neg h]
  · intro prompt strict resOk data
    by_cases hp : jsTrimS prompt = "" <;> simp [relayQuery, hp]

/-- A state with an empty prompt (and otherwise ready). -/
def emptyPromptState : AppState :=
  ⟨Provider.openai, "key", [⟨"1", "A", 11, "t", "Hello world"⟩], "", "",
    "   ", "", Json.arr [], true, false, "", ""⟩

theorem c7_witness :
    onQuery emptyPromptState true Json.null = (emptyPromptState, false) ∧
    relayQuery [] "q" true true Json.null =
      (⟨200, true, some noDocsAnswer, some (Json.arr []), none⟩, false) ∧
    (relayQuery [] "" true true Json.null).2 = false := by
  obtain ⟨h1, h2, h3⟩ := c7_validation_blocks
  exact ⟨h1 emptyPromptState true Json.null (Or.inl (by decide)),
    h2 "q" true true Json.null (by decide), h3 "" true true Json.null⟩

/-! ## Claim C8 -/

theorem jsOrEmptyStr_str (c : String) :
    jsOrEmptyStr (some (Json.str c)) = Json.str c := by
  by_cases hc : c = ""
  · subst hc; rfl
  · simp [jsOrEmptyStr, jsTruthy, hc]

/-- A canonical provider-B success body whose reply text is `c`. -/
def mkClaudeData (c : String) : Json :=
  Json.obj [("content", Json.arr [Json.obj [("text", Json.str c)]])]

/-- A canonical provider-C success body whose reply text is `c`. -/
def mkGeminiData (c : String) : Json :=
  Json.obj [("candidates", Json.arr [Json.obj [("content",
    Json.obj [("parts", Json.arr [Json.obj [("text", Json.str c)]])])]])]

/-- C8: each provider's request is shaped exactly per its wire-protocol
row - provider A bearer-token header and system+user messages with the
reply at `choices[0].message.content`; provider B `x-api-key` plus version
header, top-level `system`, single user message, reply at
`content[0].text`; provider C credential in the query string, fused
system-and-user text under `contents`, `generationConfig.maxOutputTokens`,
reply at `candidates[0].content.parts[0].text` - and no provider carries
another provider's auth header shape (the other providers' URLs are
credential-free constants). -/
theorem c8_request_shapes (k s u c : String) :
    ((clientRequest Provider.openai k s u).url = "/openai/v1/chat/completions" ∧
     (clientRequest Provider.openai k s u).headers.lookup "Authorization" =
       some ("Bearer " ++ k) ∧
     jsGet (clientRequest Provider.openai k s u).body "model" =
       some (Json.str "gpt-4o") ∧
     jsGet (clientRequest Provider.openai k s u).body "max_tokens" =
       some (Json.num 4000 0) ∧
     jsGet (clientRequest Provider.openai k s u).body "messages" =
       some (Json.arr
         [Json.obj [("role", Json.str "system"), ("content", Json.str s)],
          Json.obj [("role", Json.str "user"), ("content", Json.str u)]]) ∧
     extractReply Provider.openai (mkOpenaiData c) = .ok (Json.str c)) ∧
    ((clientRequest Provider.claude k s u).url = "/claude/v1/messages" ∧
     (clientRequest Provider.claude k s u).headers.lookup "x-api-key" = some k ∧
     (clientRequest Provider.claude k s u).headers.lookup "anthropic-version" =
       some "2023-06-01" ∧
     jsGet (clientRequest Provider.claude k s u).body "system" =
       some (Json.str s) ∧
     jsGet (clientRequest Provider.claude k s u).body "max_tokens" =
       some (Json.num 4000 0) ∧
     jsGet (clientRequest Provider.claude k s u).body "messages" =
       some (Json.arr
         [Json.obj [("role", Json.str "user"), ("content", Json.str u)]]) ∧
     extractReply Provider.claude (mkClaudeData c) = .ok (Json.str c)) ∧
    ((clientRequest Provider.gemini k s u).url =
       "/gemini/v1beta/models/gemini-1.5-pro:generateContent?key=" ++ k ∧
     jsGet (clientRequest Provider.gemini k s u).body "contents" =
       some (Json.arr [Json.obj [("parts", Json.arr
         [Json.obj [("text", Json.str (s ++ "\n\n" ++ u))]])]]) ∧
     jsGet (clientRequest Provider.gemini k s u).body "generationConfig" =
       some (Json.obj [("maxOutputTokens", Json.num 4000 0)]) ∧
     extractReply Provider.gemini (mkGeminiData c) = .ok (Json.str c)) ∧
    ((clientRequest Provider.claude k s u).headers.lookup "Authorization" = none ∧
     (clientRequest Provider.gemini k s u).headers.lookup "Authorization" = none ∧
     (clientRequest Provider.openai k s u).headers.lookup "x-api-key" = none ∧
     (clientRequest Provider.gemini k s u).headers.lookup "x-api-key" = none) := by
  refine ⟨⟨rfl, rfl, rfl, rfl, rfl, ?_⟩, ⟨rfl, rfl, rfl, rfl, rfl, rfl, ?_⟩,
    ⟨rfl, rfl, rfl, ?_⟩, rfl, rfl, rfl, rfl⟩
  · exact congrArg Except.ok (jsOrEmptyStr_str c)
  · exact congrArg Except.ok (jsOrEmptyStr_str c)
  · exact congrArg Except.ok (jsOrEmptyStr_str c)

/-! ## Claim C9 -/

/-- A response body whose `error.message` field is present but empty. -/
def emptyMsgData : Json :=
  Json.obj [("error", Json.obj [("message", Json.str "")])]

/-- C9 counterexample: with `error.message` present but equal to the empty
string, the thrown error carries the generic fallback, not the field (the
source guards the field with JavaScript truthiness, `||`). -/
theorem c9_present_empty_message_not_carried :
    errDataMessage emptyMsgData = some (Json.str "") ∧
    clientCall Provider.openai false emptyMsgData = .error "OpenAI error" ∧
    clientCall Provider.openai false emptyMsgData ≠ .error "" := by
  refine ⟨rfl, rfl, ?_⟩
  intro h
  rw [show clientCall Provider.openai false emptyMsgData =
    Except.error "OpenAI error" from rfl] at h
  injection h with h2
  exact absurd h2 (by decide)

/-- C9 (amended): on a non-success HTTP status every adapter fails - never
producing a successful result - with the provider's `error.message` when
it is present and non-empty (truthy), and the generic per-provider
fallback when the optional chain yields nothing; the relay forwards such a
failure as a 500 response carrying the same message. -/
theorem c9_error_message_selection :
    (∀ (p : Provider) (data : Json) (s : String),
      errDataMessage data = some (Json.str s) → s ≠ "" →
      clientCall p false data = .error s) ∧
    (∀ (p : Provider) (data : Json),
      errDataMessage data = none →
      clientCall p false data = .error (fallbackMsg p)) ∧
    (∀ (p : Provider) (data : Json), ∃ m, clientCall p false data = .error m) ∧
    (∀ (corpus : List Doc) (prompt : String) (strict : Bool) (data : Json),
      jsTrimS prompt ≠ "" → corpus ≠ [] →
      relayQuery corpus prompt strict false data =
        (⟨500, false, none, none,
          some (errorMessageOf Provider.openai data)⟩, true)) := by
  refine ⟨?_, ?_, ?_, ?_⟩
  · intro p data s hmsg hs
    simp [clientCall, errorMessageOf, hmsg, jsTruthy, jsToStr, hs]
  · intro p data hmsg
    simp [clientCall, errorMessageOf, hmsg]
  · intro p data
    exact ⟨errorMessageOf p data, rfl⟩
  · intro corpus prompt strict data hp hc
    simp [relayQuery, if_neg hp, if_neg hc, relayCall]

/-- A response body with a non-empty `error.message`. -/
def boomData : Json :=
  Json.obj [("error", Json.obj [("message", Json.str "Boom")])]

theorem c9_witness :
    clientCall Provider.openai false boomData = .error "Boom" ∧
    clientCall Provider.claude false Json.null = .error "Claude error" ∧
    relayQuery [⟨"1", "A", 11, "t", "Hello world"⟩] "q" true false boomData =
      (⟨500, false, none, none, some "Boom"⟩, true) := by
  obtain ⟨h1, h2, h3, h4⟩ := c9_error_message_selection
  refine ⟨h1 Provider.openai boomData "Boom" rfl (by decide),
    h2 Provider.claude Json.null rfl, ?_⟩
  rw [h4 [⟨"1", "A", 11, "t", "Hello world"⟩] "q" true boomData
    (by decide) (by decide)]
  rfl

/-! ## Claim C10 -/

/-- C10: clear-corpus empties the document store and resets the answer,
the quotes list and the preferred-quote selection, while leaving the
prompt, the credential, the selected provider, the strict-mode flag, the
error message, the loading flag and the paste fields unchanged. -/
theorem c10_clear_corpus_frame (st : AppState) :
    (clearAll st).docs = [] ∧ (clearAll st).answer = "" ∧
    (clearAll st).quotes = Json.arr [] ∧ (clearAll st).preferredQuote = "" ∧
    (clearAll st).prompt = st.prompt ∧ (clearAll st).apiKey = st.apiKey ∧
    (clearAll st).provider = st.provider ∧
    (clearAll st).strictMode = st.strictMode ∧
    (clearAll st).error = st.error ∧ (clearAll st).loading = st.loading ∧
    (clearAll st).pasteText = st.pasteText ∧
    (clearAll st).pasteName = st.pasteName :=
  ⟨rfl, rfl, rfl, rfl, rfl, rfl, rfl, rfl, rfl, rfl, rfl, rfl⟩

end AcademicPlatform
